import Mathlib

/-!
# tarkov-server-watcher: shallow embedding of `main.go`

The program polls a game client's log directory, extracts the server address from the
newest log file, resolves it to a country and shows the result on a tray icon.

Everything the program reads from outside (directory listings, file lines, the HTTP
answer, the JSON decoder, `filepath.Join`, the wall clock) is a field of `World`;
everything it writes (console lines, tray title, tray tooltip) is an `Effect` in an
output trace.  Go strings are Lean `String`s; string algorithms work on the character
list `String.data`.
-/

namespace TarkovWatcher

/-! ## Data model -/

/-- A Go `error` value.  `external` is an error returned by `os`, `net/http` or
`encoding/json`; `errorf` is an error built by `fmt.Errorf` inside `main.go`. -/
inductive Error where
  | external (msg : String)
  | errorf (msg : String)
deriving DecidableEq, Repr

/-- The text of an error, `err.Error()`. -/
def Error.msg : Error → String
  | .external m => m
  | .errorf m => m

/-- An `os.FileInfo` as used by `getLatestLogFilePath`: `Name()`, `IsDir()` and
`ModTime()` (an instant, as a number of nanoseconds). -/
structure FileInfo where
  Name : String
  IsDir : Bool
  ModTime : Int
deriving DecidableEq, Repr

/-- Equality of Go results `(value, err)` is decidable. -/
instance instDecidableEqExcept {ε α : Type} [DecidableEq ε] [DecidableEq α] :
    DecidableEq (Except ε α)
  | .ok a, .ok b =>
    if h : a = b then isTrue (by rw [h]) else isFalse (fun h2 => h (Except.ok.inj h2))
  | .error a, .error b =>
    if h : a = b then isTrue (by rw [h]) else isFalse (fun h2 => h (Except.error.inj h2))
  | .ok _, .error _ => isFalse (fun h => by cases h)
  | .error _, .ok _ => isFalse (fun h => by cases h)

/-- An opened `*os.File`: what `Readdir(-1)` returns on it, and the lines of its text,
in order.  A line is the text between two consecutive newline characters (or the start
or the end of the file), a carriage return in front of the newline included. -/
structure File where
  Readdir : Except Error (List FileInfo)
  Lines : List String
deriving DecidableEq

/-- The Go struct `IPResponse`. -/
structure IPResponse where
  IP : String
  CountryName : String
deriving DecidableEq, Repr

/-- The local wall clock reading of `time.Now()`, as far as `Format("15:04")` uses it. -/
structure Clock where
  hour : Fin 24
  minute : Fin 60
deriving DecidableEq, Repr

/-- The surroundings of the program during one poll cycle. -/
structure World where
  /-- The function `os.Open`. -/
  Open : String → Except Error File
  /-- The function `filepath.Join`, applied to the list of its arguments. -/
  Join : List String → String
  /-- The function `http.Get`, giving the response body. -/
  Get : String → Except Error String
  /-- A `json.NewDecoder(body).Decode(&ipResp)`, giving the filled struct. -/
  Decode : String → Except Error IPResponse
  /-- The value of `time.Now()`. -/
  Now : Clock

/-- What the program does to the console and to the tray surface. -/
inductive Effect where
  | Println (line : String)
  | AddMenuItem (title tooltip : String)
  | SetTitle (title : String)
  | SetTooltip (tooltip : String)
  | Quit
deriving DecidableEq, Repr

/-- The two variables `latestIP` and `lastUpdated` of `onReady`. -/
structure State where
  latestIP : String
  lastUpdated : String
deriving DecidableEq, Repr

/-- The constant `baseDir`. -/
def baseDir : String := "C:\\Battlestate Games\\EFT\\Logs"

/-! ## String helpers of the Go standard library -/

/-- The function `strings.Contains s substr`, on character lists. -/
def containsChars (substr : List Char) : List Char → Bool
  | [] => substr.isPrefixOf []
  | c :: cs => substr.isPrefixOf (c :: cs) || containsChars substr cs

/-- The function `strings.Contains`. -/
def Contains (s substr : String) : Bool := containsChars substr.data s.data

/-- The function `strings.TrimPrefix`: `s` without the leading `pre`, or `s` itself when it
does not start with `pre`. -/
def TrimPrefix (s pre : String) : String :=
  if pre.data.isPrefixOf s.data then String.mk (s.data.drop pre.data.length) else s

/-- The constant `bufio.MaxScanTokenSize`: the size of the largest buffer a
`bufio.Scanner` allocates, 64 KiB. -/
def MaxScanTokenSize : Nat := 64 * 1024

/-- The function `dropCR` of `bufio`: the line without one final carriage return. -/
def dropCR (data : String) : String :=
  if data.data.getLast? = some '\r' then String.mk data.data.dropLast else data

/-- The successive values of `scanner.Text()` of a `bufio.NewScanner` (split function
`ScanLines`, default buffer) over a file with the given lines, until `scanner.Scan()`
returns false.  A line is a token when the line and its newline fit the buffer of
`MaxScanTokenSize` bytes, that is when the line has fewer bytes than that; on the first
line that does not fit, `Scan` sets `ErrTooLong` and returns false, and no later line is
read.  The token is the line after `dropCR`. -/
def scannerTexts : List String → List String
  | [] => []
  | line :: rest =>
    if line.utf8ByteSize < MaxScanTokenSize then dropCR line :: scannerTexts rest else []

/-- Two decimal digits of `n`, as `Format` prints an hour or a minute. -/
def pad2 (n : Nat) : List Char := [Nat.digitChar (n / 10 % 10), Nat.digitChar (n % 10)]

/-- The call `t.Format("15:04")`: hour and minute, two digits each. -/
def Clock.Format1504 (t : Clock) : String :=
  String.mk (pad2 t.hour.val ++ ':' :: pad2 t.minute.val)

/-! ## The regular expression `Ip: ([\d\.]+),` -/

/-- The character class `[\d\.]`: an ASCII digit or a dot. -/
def isIpChar (c : Char) : Bool := c.isDigit || c == '.'

/-- The literal head of the pattern. -/
def ipLiteral : List Char := ['I', 'p', ':', ' ']

/-- A match of the pattern anchored at the head of `s`: the literal `Ip: `, then the
longest run of class characters, which must not be empty, then a comma.  (A shorter run
cannot be followed by a comma, the comma not being in the class, so the greedy `+` has
nothing to backtrack to.)  The result is the captured group. -/
def reMatchAt (s : List Char) : Option (List Char) :=
  if ipLiteral.isPrefixOf s then
    let rest := s.drop ipLiteral.length
    match rest.takeWhile isIpChar, rest.dropWhile isIpChar with
    | c :: g, ',' :: _ => some (c :: g)
    | _, _ => none
  else none

/-- The call `re.FindStringSubmatch` on character lists: the leftmost match, as the list
of the whole match and the captured group, or the empty list (Go `nil`) without one. -/
def findSubmatchChars : List Char → List (List Char)
  | [] => []
  | c :: cs =>
    match reMatchAt (c :: cs) with
    | some g => [ipLiteral ++ g ++ [','], g]
    | none => findSubmatchChars cs

/-- The call `re.FindStringSubmatch(line)` for `re = Ip: ([\d\.]+),`. -/
def FindStringSubmatch (line : String) : List String :=
  (findSubmatchChars line.data).map String.mk

/-! ## The program -/

/-- The body of the `for _, file := range files` loop of `getLatestLogFilePath`, on the
variable `latestDir` (`none` is the nil interface). -/
def latestDirStep (latestDir : Option FileInfo) (file : FileInfo) : Option FileInfo :=
  if file.IsDir then
    match latestDir with
    | none => some file
    | some d => if file.ModTime > d.ModTime then some file else some d
  else latestDir

/-- The function `getLatestLogFilePath`: the console lines it prints and what it
returns. -/
def getLatestLogFilePath (w : World) (dirPath : String) : List Effect × Except Error String :=
  match w.Open dirPath with
  | .error err => ([], .error err)
  | .ok dir =>
    match dir.Readdir with
    | .error err => ([], .error err)
    | .ok files =>
      match files.foldl latestDirStep none with
      | none => ([], .error (.errorf ("no directories found in " ++ dirPath)))
      | some latestDir =>
        let logFileName := TrimPrefix latestDir.Name "log_" ++ " application.log"
        let logFilePath := w.Join [dirPath, latestDir.Name, logFileName]
        ([.Println ("Latest directory: " ++ latestDir.Name),
          .Println ("Trying to open log file at path: " ++ logFilePath)],
         .ok logFilePath)

/-- The marker of a relevant log line. -/
def marker : String := "RaidMode: Online,"

/-- The body of the `for scanner.Scan()` loop of `getIPFromMatchingLine`, on the
variable `matchingLines`; `line` is `scanner.Text()`. -/
def scanStep (matchingLines : List String) (line : String) : List String :=
  if Contains line marker then matchingLines ++ [line] else matchingLines

/-- The function `getIPFromMatchingLine`.  The loop runs over the lines the scanner
yields; `scanner.Err()` is never read, so a scan cut short by an over-long line goes on
with the lines read so far. -/
def getIPFromMatchingLine (w : World) (logFilePath : String) : Except Error String :=
  match w.Open logFilePath with
  | .error err => .error err
  | .ok file =>
    let matchingLines := (scannerTexts file.Lines).foldl scanStep []
    if matchingLines.length = 0 then
      .error (.errorf "no matching line found in log file")
    else
      let latestLine := matchingLines.getD (matchingLines.length - 1) ""
      let found := FindStringSubmatch latestLine
      if found.length < 2 then
        .error (.errorf "could not extract IP from line")
      else
        .ok (found.getD 1 "")

/-- The function `getCountryNameForIP`. -/
def getCountryNameForIP (w : World) (ip : String) : Except Error String :=
  match w.Get ("https://api.iplocation.net/?ip=" ++ ip) with
  | .error err => .error err
  | .ok body =>
    match w.Decode body with
    | .error err => .error err
    | .ok ipResp => .ok ipResp.CountryName

/-- The function `checkIPAndUpdateTray`: the new values of the two variables it has
pointers to, and its output trace. -/
def checkIPAndUpdateTray (w : World) (s : State) : State × List Effect :=
  match getLatestLogFilePath w baseDir with
  | (out, .error err) => (s, out ++ [.Println ("Error retrieving log file: " ++ err.msg)])
  | (out, .ok logFilePath) =>
    match getIPFromMatchingLine w logFilePath with
    | .error err => (s, out ++ [.Println ("Error extracting IP: " ++ err.msg)])
    | .ok ip =>
      match getCountryNameForIP w ip with
      | .error err => (s, out ++ [.Println ("Error getting country name for IP: " ++ err.msg)])
      | .ok countryName =>
        let latestIP := ip
        let lastUpdated := w.Now.Format1504
        ({ latestIP := latestIP, lastUpdated := lastUpdated },
         out ++ [.SetTooltip ("IP: " ++ latestIP ++ " | Country: " ++ countryName ++
                              " | Last Updated: " ++ lastUpdated)])

/-- What the `select` of the loop in `onReady` receives: a click on "Quit", a click on
"Show IP & Country", or the one-minute timer (with the surroundings at that moment). -/
inductive Event where
  | QuitClicked
  | ShowIPClicked
  | Timer (w : World)

/-- The `case <-mShowIP.ClickedCh` branch. -/
def showIP (s : State) : State × List Effect :=
  if s.latestIP ≠ "" then
    (s, [.SetTitle ("IP: " ++ s.latestIP ++ " | Last Updated: " ++ s.lastUpdated),
         .Println ("IP: " ++ s.latestIP ++ " | Last Updated: " ++ s.lastUpdated)])
  else
    (s, [.SetTitle "IP not yet determined"])

/-- The `for { select { ... } }` loop of `onReady` over the events it receives; a click
on "Quit" ends it. -/
def eventLoop (s : State) : List Event → State × List Effect
  | [] => (s, [])
  | .QuitClicked :: _ => (s, [.Quit])
  | .ShowIPClicked :: rest =>
    let r := showIP s
    let k := eventLoop r.1 rest
    (k.1, r.2 ++ k.2)
  | .Timer w :: rest =>
    let r := checkIPAndUpdateTray w s
    let k := eventLoop r.1 rest
    (k.1, r.2 ++ k.2)

/-- The variables `latestIP` and `lastUpdated` as declared: both the empty string. -/
def initState : State := { latestIP := "", lastUpdated := "" }

/-- The function `onReady` with the goroutine it starts: `w0` is the surroundings at
startup, `events` what the loop receives afterwards. -/
def onReady (w0 : World) (events : List Event) : State × List Effect :=
  let r := checkIPAndUpdateTray w0 initState
  let k := eventLoop r.1 events
  (k.1, [.AddMenuItem "Show IP & Country" "Display the latest IP and country",
         .AddMenuItem "Quit" "Quit the app"] ++ r.2 ++ k.2)

/-! ## Sample inputs -/

/-- A world with the directory `baseDir` holding `files`, every other path opening as a
file with the given `lines`, a resolver that answers `country`, and a clock at 09:05. -/
def sampleWorld (files : List FileInfo) (lines : List String) (country : String) : World where
  Open := fun p =>
    if p = baseDir then .ok { Readdir := .ok files, Lines := [] }
    else .ok { Readdir := .error (.external "not a directory"), Lines := lines }
  Join := fun parts => String.intercalate "\\" parts
  Get := fun url => .ok url
  Decode := fun body => .ok { IP := body, CountryName := country }
  Now := { hour := 9, minute := 5 }

/-- A listing with two files and three session directories, the two newest directories
sharing their modification time. -/
def sampleListing : List FileInfo :=
  [{ Name := "notes.txt", IsDir := false, ModTime := 9 },
   { Name := "log_A", IsDir := true, ModTime := 5 },
   { Name := "log_B", IsDir := true, ModTime := 7 },
   { Name := "log_C", IsDir := true, ModTime := 7 },
   { Name := "crash.dmp", IsDir := false, ModTime := 8 }]

/-- A listing without any directory. -/
def filesOnlyListing : List FileInfo :=
  [{ Name := "notes.txt", IsDir := false, ModTime := 9 },
   { Name := "crash.dmp", IsDir := false, ModTime := 8 }]

/-- A world in which only `baseDir` opens, as a directory holding `files`. -/
def dirOnlyWorld (files : List FileInfo) : World where
  Open := fun p =>
    if p = baseDir then .ok { Readdir := .ok files, Lines := [] }
    else .error (.external "file does not exist")
  Join := fun parts => String.intercalate "\\" parts
  Get := fun _ => .error (.external "no network")
  Decode := fun _ => .error (.external "unexpected end of JSON input")
  Now := { hour := 0, minute := 0 }

/-- One poll cycle fails: the log file is not located, or it is and no address is
extracted, or both succeed and the country is not resolved. -/
def TickFails (w : World) : Prop :=
  (∃ err, (getLatestLogFilePath w baseDir).2 = .error err) ∨
  (∃ p err, (getLatestLogFilePath w baseDir).2 = .ok p ∧
    getIPFromMatchingLine w p = .error err) ∨
  (∃ p ip err, (getLatestLogFilePath w baseDir).2 = .ok p ∧
    getIPFromMatchingLine w p = .ok ip ∧ getCountryNameForIP w ip = .error err)

/-- One poll cycle succeeds: the three stages all return a value. -/
def TickSucceeds (w : World) : Prop :=
  ∃ p ip c, (getLatestLogFilePath w baseDir).2 = .ok p ∧
    getIPFromMatchingLine w p = .ok ip ∧ getCountryNameForIP w ip = .ok c

/-- The choice made by the loop of `getLatestLogFilePath`: `d` stands in the listing
between `pre` and `post`, it is a directory, every directory before it is strictly older
and every directory after it is not newer. -/
def ChosenFrom (files : List FileInfo) (d : FileInfo) : Prop :=
  ∃ pre post, files = pre ++ d :: post ∧ d.IsDir = true ∧
    (∀ e ∈ pre, e.IsDir = true → e.ModTime < d.ModTime) ∧
    (∀ e ∈ post, e.IsDir = true → e.ModTime ≤ d.ModTime)

/-- The invariant of the loop: the two variables are empty together, and `latestIP`
holds digits and dots only. -/
def LoopInv (s : State) : Prop :=
  (s.latestIP = "" ↔ s.lastUpdated = "") ∧ ∀ c ∈ s.latestIP.data, isIpChar c = true

/-- A world with the directory `baseDir` holding `files` and every other path opening
as a file with the given `lines`, in which `http.Get` fails. -/
def offlineWorld (files : List FileInfo) (lines : List String) : World where
  Open := fun p =>
    if p = baseDir then .ok { Readdir := .ok files, Lines := [] }
    else .ok { Readdir := .error (.external "not a directory"), Lines := lines }
  Join := fun parts => String.intercalate "\\" parts
  Get := fun _ => .error (.external "no such host")
  Decode := fun _ => .error (.external "unexpected end of JSON input")
  Now := { hour := 9, minute := 5 }

/-- A world in which a poll cycle succeeds, with the address 5.6.7.8 in Germany at
09:05. -/
def onlineWorld : World :=
  sampleWorld sampleListing
    ["t1 RaidMode: Online, Ip: 1.2.3.4, Port: 17000",
     "t2 RaidMode: Online, Ip: 5.6.7.8, Port: 17000"] "Germany"

/-- A line of 70000 letters and no newline, too long for the scanner. -/
def longLine : String := String.mk (List.replicate 70000 'a')

/-- A state left by an earlier successful poll cycle. -/
def staleState : State := { latestIP := "1.2.3.4", lastUpdated := "08:00" }

/-- A run of the loop: a failing tick, a click, a succeeding tick, a failing tick, a
click. -/
def sampleEvents : List Event :=
  [.Timer (dirOnlyWorld sampleListing), .ShowIPClicked, .Timer onlineWorld,
   .Timer (dirOnlyWorld filesOnlyListing), .ShowIPClicked]

/-! ## Reading of the pattern, independent of the matcher -/

/-- The pattern `Ip: ([\d\.]+),` occurs in `line` right after the first `a` characters,
with `g` as the text of the group: `line` is `a`, then `Ip: `, then `g`, then a comma,
then anything, and `g` is a non-empty run of digits and dots. -/
def IpMatchAt (line a g : List Char) : Prop :=
  g ≠ [] ∧ (∀ c ∈ g, isIpChar c = true) ∧ ∃ b, line = a ++ (ipLiteral ++ g ++ ',' :: b)

/-- The address captured from `line`: the group of the leftmost occurrence of the
pattern. -/
def Captures (line : String) (ip : String) : Prop :=
  ∃ a, IpMatchAt line.data a ip.data ∧
    ∀ a2 g2, IpMatchAt line.data a2 g2 → a.length ≤ a2.length

/-- The line contains some occurrence of the pattern `Ip: ([\d\.]+),`. -/
def HasIpPattern (line : String) : Prop := ∃ a g, IpMatchAt line.data a g

/-- A non-empty run of ASCII digits. -/
def IsDigitGroup (g : List Char) : Prop := g ≠ [] ∧ ∀ c ∈ g, c.isDigit = true

/-- The line contains `Ip: x.x.x.x,`: the literal `Ip: `, four digit groups separated by
dots, and a comma. -/
def HasDottedQuad (line : String) : Prop :=
  ∃ a g1 g2 g3 g4 b, IsDigitGroup g1 ∧ IsDigitGroup g2 ∧ IsDigitGroup g3 ∧ IsDigitGroup g4 ∧
    line.data = a ++ (ipLiteral ++ (g1 ++ '.' :: g2 ++ '.' :: g3 ++ '.' :: g4) ++ ',' :: b)

/-! ## Lemmas on the string helpers -/

theorem containsChars_iff (sub s : List Char) :
    containsChars sub s = true ↔ sub <:+: s := by
  induction s with
  | nil =>
    simp [containsChars]
  | cons c cs ih =>
    simp only [containsChars, Bool.or_eq_true, ih, List.isPrefixOf_iff_prefix]
    rw [List.infix_cons_iff]

theorem takeWhile_append_stop {α : Type} (p : α → Bool) (g : List α) (x : α) (b : List α)
    (hg : ∀ c ∈ g, p c = true) (hx : p x = false) :
    (g ++ x :: b).takeWhile p = g ∧ (g ++ x :: b).dropWhile p = x :: b := by
  induction g with
  | nil => simp [List.takeWhile, List.dropWhile, hx]
  | cons c g ih =>
    have hc : p c = true := hg c (List.mem_cons_self _ _)
    have ih2 := ih (fun d hd => hg d (List.mem_cons_of_mem _ hd))
    simp [List.takeWhile, List.dropWhile, hc, ih2.1, ih2.2]

theorem reMatchAt_eq_some (s g : List Char) :
    reMatchAt s = some g ↔ IpMatchAt s [] g := by
  unfold reMatchAt IpMatchAt
  constructor
  · intro h
    split at h
    · rename_i hp
      rw [List.isPrefixOf_iff_prefix] at hp
      obtain ⟨rest, rfl⟩ := hp
      simp only [List.drop_left] at h
      split at h
      · rename_i c g2 b htw hdw
        simp only [Option.some.injEq] at h
        subst h
        refine ⟨by simp, ?_, b, ?_⟩
        · intro d hd
          rw [← htw] at hd
          exact (List.mem_takeWhile_imp hd)
        · have := List.takeWhile_append_dropWhile isIpChar rest
          rw [htw, hdw] at this
          simp [← this]
      · cases h
    · cases h
  · rintro ⟨hne, hall, b, rfl⟩
    have hp : ipLiteral.isPrefixOf ([] ++ (ipLiteral ++ g ++ ',' :: b)) = true := by
      rw [List.isPrefixOf_iff_prefix]
      exact ⟨g ++ ',' :: b, by simp⟩
    rw [if_pos hp]
    have hd : ([] ++ (ipLiteral ++ g ++ ',' :: b)).drop ipLiteral.length = g ++ ',' :: b := by
      simp
    simp only [hd]
    obtain ⟨h1, h2⟩ := takeWhile_append_stop isIpChar g ',' b hall (by decide)
    rw [h1, h2]
    cases g with
    | nil => exact absurd rfl hne
    | cons c g => rfl

theorem ipMatchAt_cons (x : Char) (s a g : List Char) :
    IpMatchAt (x :: s) (x :: a) g ↔ IpMatchAt s a g := by
  unfold IpMatchAt
  simp

theorem ipMatchAt_head {x y : Char} {s a g : List Char} (h : IpMatchAt (x :: s) (y :: a) g) :
    IpMatchAt s a g := by
  obtain ⟨h1, h2, b, hb⟩ := h
  refine ⟨h1, h2, b, ?_⟩
  simp only [List.cons_append, List.cons.injEq] at hb
  exact hb.2

theorem ipMatchAt_nil (a g : List Char) : ¬ IpMatchAt [] a g := by
  rintro ⟨_, _, b, hb⟩
  have := congrArg List.length hb
  simp [ipLiteral] at this
  omega

theorem findSubmatchChars_shape (s : List Char) :
    findSubmatchChars s = [] ∨
      ∃ g, findSubmatchChars s = [ipLiteral ++ g ++ [','], g] ∧ g ≠ [] ∧
        ∀ c ∈ g, isIpChar c = true := by
  induction s with
  | nil => left; rfl
  | cons c cs ih =>
    unfold findSubmatchChars
    cases hm : reMatchAt (c :: cs) with
    | none => simpa using ih
    | some g =>
      right
      have := (reMatchAt_eq_some _ _).1 hm
      exact ⟨g, rfl, this.1, this.2.1⟩

theorem findSubmatchChars_eq_nil (s : List Char) :
    findSubmatchChars s = [] ↔ ∀ a g, ¬ IpMatchAt s a g := by
  induction s with
  | nil =>
    simp [findSubmatchChars, ipMatchAt_nil]
  | cons c cs ih =>
    unfold findSubmatchChars
    cases hm : reMatchAt (c :: cs) with
    | some g =>
      simp only [reduceCtorEq, false_iff, not_forall, not_not]
      exact ⟨[], g, (reMatchAt_eq_some _ _).1 hm⟩
    | none =>
      simp only [ih]
      constructor
      · intro h a g hag
        cases a with
        | nil =>
          have := (reMatchAt_eq_some _ _).2 hag
          rw [hm] at this
          cases this
        | cons y a => exact h a g (ipMatchAt_head hag)
      · intro h a g hag
        exact h (c :: a) g ((ipMatchAt_cons c cs a g).2 hag)

theorem findSubmatchChars_leftmost (a : List Char) :
    ∀ (s g : List Char), IpMatchAt s a g →
      (∀ a2 g2, IpMatchAt s a2 g2 → a.length ≤ a2.length) →
      findSubmatchChars s = [ipLiteral ++ g ++ [','], g] := by
  induction a with
  | nil =>
    intro s g h _
    cases s with
    | nil => exact absurd h (ipMatchAt_nil _ _)
    | cons c cs =>
      unfold findSubmatchChars
      rw [(reMatchAt_eq_some _ _).2 h]
  | cons x a ih =>
    intro s g h hmin
    cases s with
    | nil => exact absurd h (ipMatchAt_nil _ _)
    | cons c cs =>
      unfold findSubmatchChars
      cases hm : reMatchAt (c :: cs) with
      | some g2 =>
        have := hmin [] g2 ((reMatchAt_eq_some _ _).1 hm)
        simp at this
      | none =>
        simp only
        apply ih cs g (ipMatchAt_head h)
        intro a2 g2 h2
        have hx : x = c := by
          obtain ⟨_, _, b, hb⟩ := h
          simp only [List.cons_append, List.cons.injEq] at hb
          exact hb.1.symm
        have := hmin (c :: a2) g2 ((ipMatchAt_cons c cs a2 g2).2 h2)
        simpa using this

/-! ## Lemmas on the scanner -/

theorem dropCR_data (s : String) :
    (dropCR s).data = s.data ∨ s.data = (dropCR s).data ++ ['\r'] := by
  unfold dropCR
  split
  · rename_i h
    right
    exact (List.dropLast_append_getLast? _ h).symm
  · left; rfl

theorem split_before_last {x P y t : List Char} {c r : Char} (hcr : c ≠ r)
    (h : t ++ [r] = x ++ (P ++ c :: y)) : ∃ y2, y = y2 ++ [r] ∧ t = x ++ (P ++ c :: y2) := by
  rcases List.eq_nil_or_concat y with rfl | ⟨y2, z, hy⟩
  on_goal 2 => rw [List.concat_eq_append] at hy; subst hy
  · have h2 : t ++ [r] = (x ++ P) ++ [c] := by rw [h]; simp
    have := (List.append_inj' h2 rfl).2
    simp only [List.cons.injEq, and_true] at this
    exact absurd this.symm hcr
  · have h2 : t ++ [r] = (x ++ (P ++ c :: y2)) ++ [z] := by rw [h]; simp
    obtain ⟨ht, hz⟩ := List.append_inj' h2 rfl
    simp only [List.cons.injEq, and_true] at hz
    exact ⟨y2, by rw [hz], ht⟩

theorem contains_of_dropCR (s : String) (h : Contains (dropCR s) marker = true) :
    Contains s marker = true := by
  unfold Contains at h ⊢
  rw [containsChars_iff] at h ⊢
  rcases dropCR_data s with he | he
  · rw [← he]; exact h
  · rw [he]
    exact List.IsInfix.trans h (List.infix_append' [] _ _)

theorem contains_dropCR (s : String) (h : Contains s marker = true) :
    Contains (dropCR s) marker = true := by
  rcases dropCR_data s with he | he
  · unfold Contains at h ⊢
    rw [he]; exact h
  · unfold Contains at h ⊢
    rw [containsChars_iff] at h ⊢
    obtain ⟨x, y, hxy⟩ := h
    have hm : marker.data = "RaidMode: Online".data ++ [','] := by decide
    rw [he, hm] at hxy
    have h2 : (dropCR s).data ++ ['\r'] = x ++ ("RaidMode: Online".data ++ ',' :: y) := by
      rw [← hxy]; simp
    obtain ⟨y2, _, ht⟩ := split_before_last (by decide) h2
    rw [hm]
    exact ⟨x, y2, by rw [ht]; simp⟩

theorem ipMatchAt_dropCR (s : String) (a g : List Char) :
    IpMatchAt s.data a g ↔ IpMatchAt (dropCR s).data a g := by
  rcases dropCR_data s with he | he
  · rw [he]
  · constructor
    · rintro ⟨hne, hall, b, hb⟩
      rw [he] at hb
      obtain ⟨b2, _, ht⟩ := split_before_last (by decide) hb
      exact ⟨hne, hall, b2, ht⟩
    · rintro ⟨hne, hall, b, hb⟩
      refine ⟨hne, hall, b ++ ['\r'], ?_⟩
      rw [he, hb]
      simp

theorem captures_dropCR (s ip : String) (h : Captures s ip) : Captures (dropCR s) ip := by
  obtain ⟨a, ha, hmin⟩ := h
  exact ⟨a, (ipMatchAt_dropCR s a ip.data).1 ha,
    fun a2 g2 h2 => hmin a2 g2 ((ipMatchAt_dropCR s a2 g2).2 h2)⟩

theorem scannerTexts_append (xs ys : List String)
    (h : ∀ m ∈ xs, m.utf8ByteSize < MaxScanTokenSize) :
    scannerTexts (xs ++ ys) = xs.map dropCR ++ scannerTexts ys := by
  induction xs with
  | nil => rfl
  | cons x xs ih =>
    have hx := h x (List.mem_cons_self _ _)
    have ih2 := ih (fun m hm => h m (List.mem_cons_of_mem _ hm))
    rw [List.cons_append, scannerTexts, if_pos hx, ih2, List.map_cons, List.cons_append]

theorem mem_scannerTexts (ys : List String) (t : String) (h : t ∈ scannerTexts ys) :
    ∃ m ∈ ys, t = dropCR m := by
  induction ys with
  | nil => simp [scannerTexts] at h
  | cons y ys ih =>
    unfold scannerTexts at h
    split at h
    · rcases List.mem_cons.1 h with rfl | h
      · exact ⟨y, List.mem_cons_self _ _, rfl⟩
      · obtain ⟨m, hm, ht⟩ := ih h
        exact ⟨m, List.mem_cons_of_mem _ hm, ht⟩
    · simp at h

theorem no_marker_scannerTexts (ys : List String)
    (h : ∀ m ∈ ys, Contains m marker = false) :
    ∀ t ∈ scannerTexts ys, Contains t marker = false := by
  intro t ht
  obtain ⟨m, hm, rfl⟩ := mem_scannerTexts ys t ht
  cases hc : Contains (dropCR m) marker with
  | false => rfl
  | true =>
    have := contains_of_dropCR m hc
    rw [h m hm] at this
    cases this

theorem utf8Len_replicate (n : Nat) (c : Char) :
    String.utf8Len (List.replicate n c) = n * c.utf8Size := by
  induction n with
  | zero => simp
  | succ n ih =>
    rw [List.replicate_succ, String.utf8Len_cons, ih]
    ring

theorem longLine_size : longLine.utf8ByteSize = 70000 := by
  unfold longLine
  rw [String.utf8ByteSize_mk, utf8Len_replicate]
  decide

/-! ## Lemmas on `getIPFromMatchingLine` -/

theorem foldl_scanStep (lines acc : List String) :
    lines.foldl scanStep acc = acc ++ lines.filter (fun l => Contains l marker) := by
  induction lines generalizing acc with
  | nil => simp
  | cons l ls ih =>
    simp only [List.foldl_cons, ih, scanStep, List.filter_cons]
    split <;> simp

theorem filter_last_marker (pre post : List String) (l : String)
    (hl : Contains l marker = true) (hpost : ∀ m ∈ post, Contains m marker = false) :
    (pre ++ l :: post).filter (fun l => Contains l marker) =
      pre.filter (fun l => Contains l marker) ++ [l] := by
  have hp : post.filter (fun l => Contains l marker) = [] := by
    rw [List.filter_eq_nil_iff]
    intro m hm
    simp [hpost m hm]
  simp [List.filter_append, List.filter_cons, hl, hp]

/-- On a file of which the last marker line among the lines the scanner yields is `l`,
the function applies the pattern to `l`. -/
theorem getIP_of_last_marker (w : World) (path : String) (file : File)
    (pre post : List String) (l : String)
    (hOpen : w.Open path = .ok file) (hLines : scannerTexts file.Lines = pre ++ l :: post)
    (hl : Contains l marker = true) (hpost : ∀ m ∈ post, Contains m marker = false) :
    getIPFromMatchingLine w path =
      if (FindStringSubmatch l).length < 2 then
        .error (.errorf "could not extract IP from line")
      else .ok ((FindStringSubmatch l).getD 1 "") := by
  unfold getIPFromMatchingLine
  simp only [hOpen, hLines, foldl_scanStep, List.nil_append,
    filter_last_marker pre post l hl hpost]
  have hlen : (pre.filter (fun l => Contains l marker) ++ [l]).length ≠ 0 := by simp
  rw [if_neg hlen]
  have hget : (pre.filter (fun l => Contains l marker) ++ [l]).getD
      ((pre.filter (fun l => Contains l marker) ++ [l]).length - 1) "" = l := by
    simp [List.getD_eq_getElem?_getD]
  rw [hget]

/-- When no line that the scanner yields contains the marker, the function fails with
the no-match error. -/
theorem getIP_no_marker_scanned (w : World) (path : String) (file : File)
    (hOpen : w.Open path = .ok file)
    (hnone : ∀ l ∈ scannerTexts file.Lines, Contains l marker = false) :
    getIPFromMatchingLine w path =
      .error (.errorf "no matching line found in log file") := by
  have hf : (scannerTexts file.Lines).filter (fun l => Contains l marker) = [] := by
    rw [List.filter_eq_nil_iff]
    intro m hm
    simp [hnone m hm]
  unfold getIPFromMatchingLine
  simp [hOpen, foldl_scanStep, hf]

theorem getIP_ok_chars (w : World) (path ip : String)
    (h : getIPFromMatchingLine w path = .ok ip) :
    ip.data ≠ [] ∧ ∀ c ∈ ip.data, isIpChar c = true := by
  unfold getIPFromMatchingLine at h
  split at h
  · cases h
  · rename_i file _
    simp only at h
    split at h
    · cases h
    · split at h
      · cases h
      · rename_i hlen
        simp only [Except.ok.injEq] at h
        generalize (List.foldl scanStep [] (scannerTexts file.Lines)).getD
            ((List.foldl scanStep [] (scannerTexts file.Lines)).length - 1) "" = line at h hlen
        rcases findSubmatchChars_shape line.data with h0 | ⟨g, hg, hne, hall⟩
        · rw [FindStringSubmatch, h0] at hlen
          exact absurd (by decide) hlen
        · simp only [FindStringSubmatch, hg, List.map_cons, List.map_nil] at h
          have : ip = String.mk g := by simpa using h.symm
          subst this
          exact ⟨hne, hall⟩

theorem findSubmatchChars_sound (s : List Char) :
    ∀ (x g : List Char), findSubmatchChars s = [x, g] →
      ∃ a, IpMatchAt s a g ∧ ∀ a2 g2, IpMatchAt s a2 g2 → a.length ≤ a2.length := by
  induction s with
  | nil => intro x g h; cases h
  | cons c cs ih =>
    intro x g h
    unfold findSubmatchChars at h
    cases hm : reMatchAt (c :: cs) with
    | some g2 =>
      rw [hm] at h
      simp only [List.cons.injEq, and_true] at h
      obtain ⟨_, rfl⟩ := h
      exact ⟨[], (reMatchAt_eq_some _ _).1 hm, fun a2 _ _ => by simp⟩
    | none =>
      rw [hm] at h
      obtain ⟨a, ha, hmin⟩ := ih x g h
      refine ⟨c :: a, (ipMatchAt_cons c cs a g).2 ha, ?_⟩
      intro a2 g2 h2
      cases a2 with
      | nil =>
        have := (reMatchAt_eq_some _ _).2 h2
        rw [hm] at this
        cases this
      | cons y a2 =>
        have := hmin a2 g2 (ipMatchAt_head h2)
        simpa using this

theorem captures_of_find (line ip : String) (x : List Char)
    (h : findSubmatchChars line.data = [x, ip.data]) : Captures line ip :=
  findSubmatchChars_sound line.data x ip.data h

theorem find_of_captures (line ip : String) (h : Captures line ip) :
    FindStringSubmatch line = [String.mk (ipLiteral ++ ip.data ++ [',']), ip] := by
  obtain ⟨a, ha, hmin⟩ := h
  simp [FindStringSubmatch, findSubmatchChars_leftmost a line.data ip.data ha hmin]

theorem dottedQuad_has_dot (line : String) (h : HasDottedQuad line) : '.' ∈ line.data := by
  obtain ⟨a, g1, g2, g3, g4, b, _, _, _, _, hb⟩ := h
  rw [hb]
  simp

/-! ## Claims on `getIPFromMatchingLine` -/

/-- C1, as stated, fails: in the text of three lines below the last line containing the
marker holds the address 5.6.7.8, but the line of 70000 letters before it does not fit
the buffer of the scanner; the scan ends there, `scanner.Err()` is not read, and the
function returns 1.2.3.4 from the first line. -/
theorem getIPFromMatchingLine_long_line_counterexample :
    Contains "t2 RaidMode: Online, Ip: 5.6.7.8, Port: 17000" marker = true ∧
    Captures "t2 RaidMode: Online, Ip: 5.6.7.8, Port: 17000" "5.6.7.8" ∧
    getIPFromMatchingLine
      (sampleWorld [] ["t1 RaidMode: Online, Ip: 1.2.3.4, Port: 17000", longLine,
                       "t2 RaidMode: Online, Ip: 5.6.7.8, Port: 17000"] "")
      "app.log" = .ok "1.2.3.4" ∧
    getIPFromMatchingLine
      (sampleWorld [] ["t1 RaidMode: Online, Ip: 1.2.3.4, Port: 17000", longLine,
                       "t2 RaidMode: Online, Ip: 5.6.7.8, Port: 17000"] "")
      "app.log" ≠ .ok "5.6.7.8" := by
  have hscan : scannerTexts ["t1 RaidMode: Online, Ip: 1.2.3.4, Port: 17000", longLine,
      "t2 RaidMode: Online, Ip: 5.6.7.8, Port: 17000"] =
      [] ++ "t1 RaidMode: Online, Ip: 1.2.3.4, Port: 17000" :: [] := by
    have h1 : "t1 RaidMode: Online, Ip: 1.2.3.4, Port: 17000".utf8ByteSize
        < MaxScanTokenSize := by decide
    have h2 : ¬ longLine.utf8ByteSize < MaxScanTokenSize := by
      rw [longLine_size]; decide
    have h3 : dropCR "t1 RaidMode: Online, Ip: 1.2.3.4, Port: 17000" =
        "t1 RaidMode: Online, Ip: 1.2.3.4, Port: 17000" := by decide
    rw [scannerTexts, if_pos h1, scannerTexts, if_neg h2, h3]
    rfl
  have hres := getIP_of_last_marker
    (sampleWorld [] ["t1 RaidMode: Online, Ip: 1.2.3.4, Port: 17000", longLine,
                     "t2 RaidMode: Online, Ip: 5.6.7.8, Port: 17000"] "")
    "app.log"
    { Readdir := .error (.external "not a directory"),
      Lines := ["t1 RaidMode: Online, Ip: 1.2.3.4, Port: 17000", longLine,
                "t2 RaidMode: Online, Ip: 5.6.7.8, Port: 17000"] }
    [] [] "t1 RaidMode: Online, Ip: 1.2.3.4, Port: 17000"
    rfl hscan (by decide) (by simp)
  have hval : getIPFromMatchingLine
      (sampleWorld [] ["t1 RaidMode: Online, Ip: 1.2.3.4, Port: 17000", longLine,
                       "t2 RaidMode: Online, Ip: 5.6.7.8, Port: 17000"] "")
      "app.log" = .ok "1.2.3.4" := hres.trans (by decide)
  refine ⟨by decide, captures_of_find _ _ ("Ip: 5.6.7.8,".data) (by decide), hval, ?_⟩
  rw [hval]
  decide

/-- C1, amended: when the last line of the text containing the marker `RaidMode: Online,`
is `l` (lines `pre` before it, marker-free lines `post` after it), every line up to and
including `l` has fewer than 65536 bytes, and the pattern captures the address `ip` from
`l`, `getIPFromMatchingLine` returns `ip`, whatever the earlier marker lines hold. -/
theorem getIPFromMatchingLine_last_marker_line (w : World) (path : String) (file : File)
    (pre post : List String) (l ip : String)
    (hOpen : w.Open path = .ok file) (hLines : file.Lines = pre ++ l :: post)
    (hshort : ∀ m ∈ pre ++ [l], m.utf8ByteSize < MaxScanTokenSize)
    (hl : Contains l marker = true) (hpost : ∀ m ∈ post, Contains m marker = false)
    (hcap : Captures l ip) :
    getIPFromMatchingLine w path = .ok ip := by
  have hscan : scannerTexts file.Lines =
      pre.map dropCR ++ dropCR l :: scannerTexts post := by
    have : pre ++ l :: post = (pre ++ [l]) ++ post := by simp
    rw [hLines, this, scannerTexts_append _ _ hshort]
    simp
  rw [getIP_of_last_marker w path file _ _ _ hOpen hscan (contains_dropCR l hl)
      (no_marker_scannerTexts post hpost),
    find_of_captures _ ip (captures_dropCR l ip hcap)]
  rfl

/-- The example of C1: of two marker lines with the addresses 1.2.3.4 and 5.6.7.8, the
second one gives the result. -/
theorem getIPFromMatchingLine_last_marker_line_witness :
    Captures "t2 RaidMode: Online, Ip: 5.6.7.8, Port: 17000" "5.6.7.8" ∧
    getIPFromMatchingLine
      (sampleWorld [] ["t1 RaidMode: Online, Ip: 1.2.3.4, Port: 17000",
                       "t2 RaidMode: Online, Ip: 5.6.7.8, Port: 17000\r"] "")
      "app.log" = .ok "5.6.7.8" ∧
    getIPFromMatchingLine
      (sampleWorld [] ["t1 RaidMode: Online, Ip: 1.2.3.4, Port: 17000",
                       "t2 RaidMode: Online, Ip: 5.6.7.8, Port: 17000"] "")
      "app.log" = .ok "5.6.7.8" :=
  ⟨captures_of_find _ _ ("Ip: 5.6.7.8,".data) (by decide),
   getIPFromMatchingLine_last_marker_line
    (sampleWorld [] ["t1 RaidMode: Online, Ip: 1.2.3.4, Port: 17000",
                     "t2 RaidMode: Online, Ip: 5.6.7.8, Port: 17000\r"] "")
    "app.log"
    { Readdir := .error (.external "not a directory"),
      Lines := ["t1 RaidMode: Online, Ip: 1.2.3.4, Port: 17000",
                "t2 RaidMode: Online, Ip: 5.6.7.8, Port: 17000\r"] }
    ["t1 RaidMode: Online, Ip: 1.2.3.4, Port: 17000"] []
    "t2 RaidMode: Online, Ip: 5.6.7.8, Port: 17000\r" "5.6.7.8"
    (by decide) rfl (by decide) (by decide) (by simp)
    (captures_of_find _ _ ("Ip: 5.6.7.8,".data) (by decide)),
   getIPFromMatchingLine_last_marker_line
    (sampleWorld [] ["t1 RaidMode: Online, Ip: 1.2.3.4, Port: 17000",
                     "t2 RaidMode: Online, Ip: 5.6.7.8, Port: 17000"] "")
    "app.log"
    { Readdir := .error (.external "not a directory"),
      Lines := ["t1 RaidMode: Online, Ip: 1.2.3.4, Port: 17000",
                "t2 RaidMode: Online, Ip: 5.6.7.8, Port: 17000"] }
    ["t1 RaidMode: Online, Ip: 1.2.3.4, Port: 17000"] []
    "t2 RaidMode: Online, Ip: 5.6.7.8, Port: 17000" "5.6.7.8"
    (by decide) rfl (by decide) (by decide) (by simp)
    (captures_of_find _ _ ("Ip: 5.6.7.8,".data) (by decide))⟩

/-- C4, as stated, fails: the line `RaidMode: Online, Ip: 1234,` contains the marker and
no `Ip: x.x.x.x,` (it has no dot at all), yet the function returns `1234` instead of the
pattern-mismatch error. -/
theorem getIPFromMatchingLine_no_quad_counterexample :
    Contains "RaidMode: Online, Ip: 1234," marker = true ∧
    ¬ HasDottedQuad "RaidMode: Online, Ip: 1234," ∧
    getIPFromMatchingLine (sampleWorld [] ["RaidMode: Online, Ip: 1234,"] "") "app.log"
      = .ok "1234" :=
  ⟨by decide, fun h => absurd (dottedQuad_has_dot _ h) (by decide), by decide⟩

/-- C4, amended: when the chosen line `l`, the last line containing the marker among the
lines the scanner yields (`pre` before it, marker-free `post` after it), holds no
occurrence of `Ip: ` followed by a non-empty run of digits and dots followed by a comma,
`getIPFromMatchingLine` fails with the error `could not extract IP from line`. -/
theorem getIPFromMatchingLine_pattern_mismatch (w : World) (path : String) (file : File)
    (pre post : List String) (l : String)
    (hOpen : w.Open path = .ok file)
    (hLines : scannerTexts file.Lines = pre ++ l :: post)
    (hl : Contains l marker = true) (hpost : ∀ m ∈ post, Contains m marker = false)
    (hno : ¬ HasIpPattern l) :
    getIPFromMatchingLine w path = .error (.errorf "could not extract IP from line") := by
  rw [getIP_of_last_marker w path file pre post l hOpen hLines hl hpost]
  have h0 : findSubmatchChars l.data = [] :=
    (findSubmatchChars_eq_nil l.data).2 (fun a g h => hno ⟨a, g, h⟩)
  simp [FindStringSubmatch, h0]

theorem getIPFromMatchingLine_pattern_mismatch_witness :
    ¬ HasIpPattern "RaidMode: Online, Ip: unknown, Port: 17000" ∧
    getIPFromMatchingLine
      (sampleWorld [] ["RaidMode: Online, Ip: 1.2.3.4,",
                       "RaidMode: Online, Ip: unknown, Port: 17000", "bye"] "")
      "app.log" = .error (.errorf "could not extract IP from line") :=
  ⟨fun ⟨a, g, h⟩ => (findSubmatchChars_eq_nil _).1 (by decide) a g h,
   getIPFromMatchingLine_pattern_mismatch
    (sampleWorld [] ["RaidMode: Online, Ip: 1.2.3.4,",
                     "RaidMode: Online, Ip: unknown, Port: 17000", "bye"] "")
    "app.log"
    { Readdir := .error (.external "not a directory"),
      Lines := ["RaidMode: Online, Ip: 1.2.3.4,",
                "RaidMode: Online, Ip: unknown, Port: 17000", "bye"] }
    ["RaidMode: Online, Ip: 1.2.3.4,"] ["bye"]
    "RaidMode: Online, Ip: unknown, Port: 17000"
    (by decide) (by decide) (by decide) (by decide)
    (fun ⟨a, g, h⟩ => (findSubmatchChars_eq_nil _).1 (by decide) a g h)⟩

/-- C5: when no line of the file contains the marker `RaidMode: Online,` (the empty file
included, and whatever `Ip: a.b.c.d,` patterns the lines hold), `getIPFromMatchingLine`
fails with the error `no matching line found in log file` and returns no address. -/
theorem getIPFromMatchingLine_no_marker (w : World) (path : String) (file : File)
    (hOpen : w.Open path = .ok file)
    (hnone : ∀ l ∈ file.Lines, Contains l marker = false) :
    getIPFromMatchingLine w path = .error (.errorf "no matching line found in log file") ∧
    ∀ ip, getIPFromMatchingLine w path ≠ .ok ip := by
  have := getIP_no_marker_scanned w path file hOpen
    (no_marker_scannerTexts file.Lines hnone)
  rw [this]
  exact ⟨rfl, fun ip h => by cases h⟩

theorem getIPFromMatchingLine_no_marker_witness :
    getIPFromMatchingLine (sampleWorld [] ["RaidMode: Offline, Ip: 1.2.3.4,"] "") "app.log"
      = .error (.errorf "no matching line found in log file") ∧
    ∀ ip, getIPFromMatchingLine
      (sampleWorld [] ["RaidMode: Offline, Ip: 1.2.3.4,"] "") "app.log" ≠ .ok ip :=
  getIPFromMatchingLine_no_marker
    (sampleWorld [] ["RaidMode: Offline, Ip: 1.2.3.4,"] "") "app.log"
    { Readdir := .error (.external "not a directory"),
      Lines := ["RaidMode: Offline, Ip: 1.2.3.4,"] }
    (by decide) (by decide)

/-! ## Lemmas on `getLatestLogFilePath` -/

theorem foldl_latestDirStep_some (files : List FileInfo) :
    ∀ d0 : FileInfo, ∃ d, files.foldl latestDirStep (some d0) = some d ∧
      ((d = d0 ∧ ∀ e ∈ files, e.IsDir = true → e.ModTime ≤ d0.ModTime) ∨
       (d0.ModTime < d.ModTime ∧ ChosenFrom files d)) := by
  induction files with
  | nil => intro d0; exact ⟨d0, rfl, Or.inl ⟨rfl, by simp⟩⟩
  | cons f fs ih =>
    intro d0
    by_cases hnew : f.IsDir = true ∧ f.ModTime > d0.ModTime
    · have hstep : latestDirStep (some d0) f = some f := by
        simp [latestDirStep, hnew.1, hnew.2]
      obtain ⟨d, hd, hcase⟩ := ih f
      refine ⟨d, by rw [List.foldl_cons, hstep, hd], Or.inr ?_⟩
      rcases hcase with ⟨rfl, hall⟩ | ⟨hlt, pre, post, rfl, hdir, hpre, hpost⟩
      · exact ⟨hnew.2, [], fs, rfl, hnew.1, by simp, hall⟩
      · refine ⟨lt_trans hnew.2 hlt, f :: pre, post, rfl, hdir, ?_, hpost⟩
        intro e he hed
        rcases List.mem_cons.1 he with rfl | he
        · exact hlt
        · exact hpre e he hed
    · have hstep : latestDirStep (some d0) f = some d0 := by
        unfold latestDirStep
        by_cases hdir : f.IsDir = true
        · have : ¬ f.ModTime > d0.ModTime := fun h => hnew ⟨hdir, h⟩
          simp [hdir, this]
        · simp [hdir]
      have hf : f.IsDir = true → f.ModTime ≤ d0.ModTime := by
        intro hdir
        exact not_lt.1 (fun h => hnew ⟨hdir, h⟩)
      obtain ⟨d, hd, hcase⟩ := ih d0
      refine ⟨d, by rw [List.foldl_cons, hstep, hd], ?_⟩
      rcases hcase with ⟨rfl, hall⟩ | ⟨hlt, pre, post, rfl, hdir, hpre, hpost⟩
      · left
        refine ⟨rfl, ?_⟩
        intro e he hed
        rcases List.mem_cons.1 he with rfl | he
        · exact hf hed
        · exact hall e he hed
      · right
        refine ⟨hlt, f :: pre, post, rfl, hdir, ?_, hpost⟩
        intro e he hed
        rcases List.mem_cons.1 he with rfl | he
        · exact lt_of_le_of_lt (hf hed) hlt
        · exact hpre e he hed

theorem foldl_latestDirStep_none (files : List FileInfo) :
    (files.foldl latestDirStep none = none ∧ ∀ e ∈ files, e.IsDir = false) ∨
    (∃ d, files.foldl latestDirStep none = some d ∧ ChosenFrom files d) := by
  induction files with
  | nil => left; exact ⟨rfl, by simp⟩
  | cons f fs ih =>
    by_cases hdir : f.IsDir = true
    · right
      have hstep : latestDirStep none f = some f := by simp [latestDirStep, hdir]
      obtain ⟨d, hd, hcase⟩ := foldl_latestDirStep_some fs f
      refine ⟨d, by rw [List.foldl_cons, hstep, hd], ?_⟩
      rcases hcase with ⟨rfl, hall⟩ | ⟨hlt, pre, post, rfl, hdd, hpre, hpost⟩
      · exact ⟨[], fs, rfl, hdir, by simp, hall⟩
      · refine ⟨f :: pre, post, rfl, hdd, ?_, hpost⟩
        intro e he hed
        rcases List.mem_cons.1 he with rfl | he
        · exact hlt
        · exact hpre e he hed
    · have hstep : latestDirStep none f = none := by simp [latestDirStep, hdir]
      have hfalse : f.IsDir = false := by simpa using hdir
      rcases ih with ⟨hnone, hall⟩ | ⟨d, hd, pre, post, rfl, hdd, hpre, hpost⟩
      · left
        refine ⟨by rw [List.foldl_cons, hstep, hnone], ?_⟩
        intro e he
        rcases List.mem_cons.1 he with rfl | he
        · exact hfalse
        · exact hall e he
      · right
        refine ⟨d, by rw [List.foldl_cons, hstep, hd], f :: pre, post, rfl, hdd, ?_, hpost⟩
        intro e he hed
        rcases List.mem_cons.1 he with rfl | he
        · rw [hfalse] at hed; cases hed
        · exact hpre e he hed

theorem chosenFrom_max {files : List FileInfo} {d : FileInfo} (h : ChosenFrom files d) :
    d ∈ files ∧ ∀ e ∈ files, e.IsDir = true → e.ModTime ≤ d.ModTime := by
  obtain ⟨pre, post, rfl, _, hpre, hpost⟩ := h
  refine ⟨by simp, ?_⟩
  intro e he hed
  rcases List.mem_append.1 he with he | he
  · exact le_of_lt (hpre e he hed)
  · rcases List.mem_cons.1 he with rfl | he
    · exact le_refl _
    · exact hpost e he hed

/-- The path and the console lines that `getLatestLogFilePath` derives from the chosen
directory entry. -/
theorem getLatestLogFilePath_of_fold (w : World) (root : String) (dir : File)
    (files : List FileInfo) (d : FileInfo)
    (hOpen : w.Open root = .ok dir) (hRead : dir.Readdir = .ok files)
    (hfold : files.foldl latestDirStep none = some d) :
    getLatestLogFilePath w root =
      ([.Println ("Latest directory: " ++ d.Name),
        .Println ("Trying to open log file at path: " ++
          w.Join [root, d.Name, TrimPrefix d.Name "log_" ++ " application.log"])],
       .ok (w.Join [root, d.Name, TrimPrefix d.Name "log_" ++ " application.log"])) := by
  unfold getLatestLogFilePath
  simp [hOpen, hRead, hfold]

theorem trimPrefix_append (pre x : String) : TrimPrefix (pre ++ x) pre = x := by
  unfold TrimPrefix
  have hp : pre.data.isPrefixOf (pre ++ x).data = true := by
    rw [List.isPrefixOf_iff_prefix, String.data_append]
    exact List.prefix_append _ _
  rw [if_pos hp, String.data_append, List.drop_left]

theorem trimPrefix_unchanged (s pre : String)
    (h : ¬ ∃ x : String, s = pre ++ x) : TrimPrefix s pre = s := by
  unfold TrimPrefix
  split
  · rename_i hp
    rw [List.isPrefixOf_iff_prefix] at hp
    obtain ⟨t, ht⟩ := hp
    exact absurd ⟨String.mk t, by
      apply String.ext
      rw [String.data_append, ← ht]⟩ h
  · rfl

theorem chosenFrom_unique_aux {pre1 post1 pre2 post2 : List FileInfo} {d1 d2 : FileInfo}
    (a : List FileInfo) (h2 : pre2 = pre1 ++ a) (h1 : d1 :: post1 = a ++ d2 :: post2)
    (hd1 : d1.IsDir = true) (hd2 : d2.IsDir = true)
    (hpre2 : ∀ e ∈ pre2, e.IsDir = true → e.ModTime < d2.ModTime)
    (hpost1 : ∀ e ∈ post1, e.IsDir = true → e.ModTime ≤ d1.ModTime) : d1 = d2 := by
  cases a with
  | nil =>
    simp only [List.nil_append, List.cons.injEq] at h1
    exact h1.1
  | cons x a =>
    simp only [List.cons_append, List.cons.injEq] at h1
    obtain ⟨rfl, rfl⟩ := h1
    have hlt := hpre2 d1 (by rw [h2]; simp) hd1
    have hle := hpost1 d2 (by simp) hd2
    exact absurd hlt (not_lt.2 hle)

theorem chosenFrom_unique {files : List FileInfo} {d1 d2 : FileInfo}
    (h1 : ChosenFrom files d1) (h2 : ChosenFrom files d2) : d1 = d2 := by
  obtain ⟨pre1, post1, e1, hd1, hpre1, hpost1⟩ := h1
  obtain ⟨pre2, post2, e2, hd2, hpre2, hpost2⟩ := h2
  rw [e1] at e2
  rcases List.append_eq_append_iff.1 e2 with ⟨a, ha, hb⟩ | ⟨c, hc, hb⟩
  · exact chosenFrom_unique_aux a ha hb hd1 hd2 hpre2 hpost1
  · exact (chosenFrom_unique_aux c hc hb hd2 hd1 hpre1 hpost2).symm

theorem fold_of_chosenFrom {files : List FileInfo} {d : FileInfo}
    (h : ChosenFrom files d) : files.foldl latestDirStep none = some d := by
  rcases foldl_latestDirStep_none files with ⟨_, hall⟩ | ⟨d2, hd2, hc2⟩
  · obtain ⟨pre, post, rfl, hd, _, _⟩ := h
    have := hall d (by simp)
    rw [hd] at this
    cases this
  · rw [hd2, chosenFrom_unique hc2 h]

/-! ## Claims on `getLatestLogFilePath` -/

/-- C2: on a listing with at least one subdirectory, `getLatestLogFilePath` succeeds, and
its path is derived from a subdirectory `d` whose modification time is the maximum over
the subdirectories of the listing (entries that are not directories do not count); every
subdirectory listed before `d` is strictly older, so that among several subdirectories of
maximal time the first in listing order is the one chosen. -/
theorem getLatestLogFilePath_newest_dir (w : World) (root : String) (dir : File)
    (files : List FileInfo)
    (hOpen : w.Open root = .ok dir) (hRead : dir.Readdir = .ok files)
    (hdir : ∃ f ∈ files, f.IsDir = true) :
    ∃ d pre post, files = pre ++ d :: post ∧ d.IsDir = true ∧
      (∀ e ∈ files, e.IsDir = true → e.ModTime ≤ d.ModTime) ∧
      (∀ e ∈ pre, e.IsDir = true → e.ModTime < d.ModTime) ∧
      (getLatestLogFilePath w root).2 =
        .ok (w.Join [root, d.Name, TrimPrefix d.Name "log_" ++ " application.log"]) := by
  rcases foldl_latestDirStep_none files with ⟨_, hall⟩ | ⟨d, hd, hc⟩
  · obtain ⟨f, hf, hfd⟩ := hdir
    rw [hall f hf] at hfd
    cases hfd
  · have hmax := (chosenFrom_max hc).2
    obtain ⟨pre, post, e, hdd, hpre, _⟩ := hc
    refine ⟨d, pre, post, e, hdd, hmax, hpre, ?_⟩
    rw [getLatestLogFilePath_of_fold w root dir files d hOpen hRead hd]

theorem getLatestLogFilePath_newest_dir_witness :
    (∃ f ∈ sampleListing, f.IsDir = true) ∧
    (∃ d pre post, sampleListing = pre ++ d :: post ∧ d.IsDir = true ∧
      (∀ e ∈ sampleListing, e.IsDir = true → e.ModTime ≤ d.ModTime) ∧
      (∀ e ∈ pre, e.IsDir = true → e.ModTime < d.ModTime) ∧
      (getLatestLogFilePath (sampleWorld sampleListing [] "") baseDir).2 =
        .ok ((sampleWorld sampleListing [] "").Join
          [baseDir, d.Name, TrimPrefix d.Name "log_" ++ " application.log"])) ∧
    (getLatestLogFilePath (sampleWorld sampleListing [] "") baseDir).2 =
      .ok "C:\\Battlestate Games\\EFT\\Logs\\log_B\\B application.log" :=
  ⟨⟨{ Name := "log_A", IsDir := true, ModTime := 5 }, by decide, rfl⟩,
   getLatestLogFilePath_newest_dir (sampleWorld sampleListing [] "") baseDir
    { Readdir := .ok sampleListing, Lines := [] } sampleListing (by decide) rfl
    ⟨{ Name := "log_A", IsDir := true, ModTime := 5 }, by decide, rfl⟩,
   by decide⟩

/-- C3: on a readable listing, `getLatestLogFilePath` fails with the error
`no directories found in <root>` exactly when no entry of the listing is a directory (the
listing is empty or holds files only), and then it returns no path. -/
theorem getLatestLogFilePath_not_found_iff (w : World) (root : String) (dir : File)
    (files : List FileInfo)
    (hOpen : w.Open root = .ok dir) (hRead : dir.Readdir = .ok files) :
    ((getLatestLogFilePath w root).2 = .error (.errorf ("no directories found in " ++ root))
      ↔ ∀ f ∈ files, f.IsDir = false) ∧
    ((∀ f ∈ files, f.IsDir = false) → ∀ p, (getLatestLogFilePath w root).2 ≠ .ok p) := by
  rcases foldl_latestDirStep_none files with ⟨hnone, hall⟩ | ⟨d, hd, hc⟩
  · have hres : (getLatestLogFilePath w root).2 =
        .error (.errorf ("no directories found in " ++ root)) := by
      unfold getLatestLogFilePath
      simp [hOpen, hRead, hnone]
    rw [hres]
    exact ⟨⟨fun _ => hall, fun _ => rfl⟩, fun _ p h => (by cases h)⟩
  · have hres := getLatestLogFilePath_of_fold w root dir files d hOpen hRead hd
    have hnot : ¬ ∀ f ∈ files, f.IsDir = false := by
      intro hall
      obtain ⟨pre, post, rfl, hdd, _, _⟩ := hc
      have := hall d (by simp)
      rw [hdd] at this
      cases this
    rw [hres]
    exact ⟨⟨fun h => (by cases h), fun h => absurd h hnot⟩, fun h => absurd h hnot⟩

theorem getLatestLogFilePath_not_found_iff_witness :
    ((getLatestLogFilePath (sampleWorld filesOnlyListing [] "") baseDir).2 =
        .error (.errorf ("no directories found in " ++ baseDir))
      ↔ ∀ f ∈ filesOnlyListing, f.IsDir = false) ∧
    (getLatestLogFilePath (sampleWorld filesOnlyListing [] "") baseDir).2 =
        .error (.errorf "no directories found in C:\\Battlestate Games\\EFT\\Logs") ∧
    ∀ p, (getLatestLogFilePath (sampleWorld filesOnlyListing [] "") baseDir).2 ≠ .ok p :=
  ⟨(getLatestLogFilePath_not_found_iff (sampleWorld filesOnlyListing [] "") baseDir
      { Readdir := .ok filesOnlyListing, Lines := [] } filesOnlyListing (by decide) rfl).1,
   by decide,
   (getLatestLogFilePath_not_found_iff (sampleWorld filesOnlyListing [] "") baseDir
      { Readdir := .ok filesOnlyListing, Lines := [] } filesOnlyListing (by decide) rfl).2
      (by decide)⟩

/-- C9: for the directory entry `d` chosen from the listing of `root`, the log file name
is `d.Name` without one leading `log_` (the whole of `d.Name` when it does not start with
`log_`) followed by ` application.log`, and the function returns the `filepath.Join` of
`root`, the unstripped `d.Name` and that file name; it does so whatever `os.Open` would
do on that path, the function never opening it. -/
theorem getLatestLogFilePath_path_shape (w : World) (root : String) (dir : File)
    (files : List FileInfo) (d : FileInfo)
    (hOpen : w.Open root = .ok dir) (hRead : dir.Readdir = .ok files)
    (hchosen : ChosenFrom files d) :
    ∃ logFileName : String,
      (getLatestLogFilePath w root).2 = .ok (w.Join [root, d.Name, logFileName]) ∧
      (∀ x : String, d.Name = "log_" ++ x → logFileName = x ++ " application.log") ∧
      ((¬ ∃ x : String, d.Name = "log_" ++ x) → logFileName = d.Name ++ " application.log") := by
  refine ⟨TrimPrefix d.Name "log_" ++ " application.log", ?_, ?_, ?_⟩
  · rw [getLatestLogFilePath_of_fold w root dir files d hOpen hRead (fold_of_chosenFrom hchosen)]
  · intro x hx
    rw [hx, trimPrefix_append]
  · intro hx
    rw [trimPrefix_unchanged _ _ hx]

theorem getLatestLogFilePath_path_shape_witness :
    ChosenFrom sampleListing { Name := "log_B", IsDir := true, ModTime := 7 } ∧
    (dirOnlyWorld sampleListing).Open
      "C:\\Battlestate Games\\EFT\\Logs\\log_B\\B application.log" =
        .error (.external "file does not exist") ∧
    ∃ logFileName : String,
      (getLatestLogFilePath (dirOnlyWorld sampleListing) baseDir).2 =
        .ok ((dirOnlyWorld sampleListing).Join [baseDir, "log_B", logFileName]) ∧
      (∀ x : String, "log_B" = "log_" ++ x → logFileName = x ++ " application.log") ∧
      ((¬ ∃ x : String, "log_B" = "log_" ++ x) → logFileName = "log_B" ++ " application.log") :=
  ⟨⟨[{ Name := "notes.txt", IsDir := false, ModTime := 9 },
      { Name := "log_A", IsDir := true, ModTime := 5 }],
     [{ Name := "log_C", IsDir := true, ModTime := 7 },
      { Name := "crash.dmp", IsDir := false, ModTime := 8 }],
     rfl, rfl, by decide, by decide⟩,
   by decide,
   getLatestLogFilePath_path_shape (dirOnlyWorld sampleListing) baseDir
    { Readdir := .ok sampleListing, Lines := [] } sampleListing
    { Name := "log_B", IsDir := true, ModTime := 7 } (by decide) rfl
    ⟨[{ Name := "notes.txt", IsDir := false, ModTime := 9 },
      { Name := "log_A", IsDir := true, ModTime := 5 }],
     [{ Name := "log_C", IsDir := true, ModTime := 7 },
      { Name := "crash.dmp", IsDir := false, ModTime := 8 }],
     rfl, rfl, by decide, by decide⟩⟩

/-! ## Lemmas on the poll cycle -/

theorem checkIPAndUpdateTray_of_ok (w : World) (s : State) (p ip c : String)
    (h1 : (getLatestLogFilePath w baseDir).2 = .ok p)
    (h2 : getIPFromMatchingLine w p = .ok ip) (h3 : getCountryNameForIP w ip = .ok c) :
    checkIPAndUpdateTray w s =
      ({ latestIP := ip, lastUpdated := w.Now.Format1504 },
       (getLatestLogFilePath w baseDir).1 ++
         [.SetTooltip ("IP: " ++ ip ++ " | Country: " ++ c ++ " | Last Updated: " ++
            w.Now.Format1504)]) := by
  unfold checkIPAndUpdateTray
  cases h : getLatestLogFilePath w baseDir with
  | mk out r =>
    rw [h] at h1
    simp only at h1
    subst h1
    simp only [h2, h3]

theorem checkIPAndUpdateTray_of_fail (w : World) (s : State) (hfail : TickFails w) :
    ∃ line, checkIPAndUpdateTray w s =
      (s, (getLatestLogFilePath w baseDir).1 ++ [.Println line]) := by
  unfold checkIPAndUpdateTray
  cases h : getLatestLogFilePath w baseDir with
  | mk out r =>
    unfold TickFails at hfail
    rw [h] at hfail
    rcases hfail with ⟨err, h1⟩ | ⟨p, err, h1, h2⟩ | ⟨p, ip, err, h1, h2, h3⟩
    · simp only at h1
      subst h1
      exact ⟨_, rfl⟩
    · simp only at h1
      subst h1
      simp only [h2]
      exact ⟨_, rfl⟩
    · simp only at h1
      subst h1
      simp only [h2, h3]
      exact ⟨_, rfl⟩

theorem getLatestLogFilePath_prints (w : World) (root : String) :
    ∀ e ∈ (getLatestLogFilePath w root).1, ∃ line, e = Effect.Println line := by
  unfold getLatestLogFilePath
  intro e he
  split at he
  · simp at he
  · split at he
    · simp at he
    · split at he
      · simp at he
      · simp only [List.mem_cons, List.mem_singleton, List.not_mem_nil, or_false] at he
        rcases he with rfl | rfl
        · exact ⟨_, rfl⟩
        · exact ⟨_, rfl⟩

theorem tickFails_or_succeeds (w : World) : TickFails w ∨ TickSucceeds w := by
  unfold TickFails TickSucceeds
  cases h1 : (getLatestLogFilePath w baseDir).2 with
  | error err => exact Or.inl (Or.inl ⟨err, rfl⟩)
  | ok p =>
    cases h2 : getIPFromMatchingLine w p with
    | error err => exact Or.inl (Or.inr (Or.inl ⟨p, err, rfl, h2⟩))
    | ok ip =>
      cases h3 : getCountryNameForIP w ip with
      | error err => exact Or.inl (Or.inr (Or.inr ⟨p, ip, err, rfl, h2, h3⟩))
      | ok c => exact Or.inr ⟨p, ip, c, rfl, h2, h3⟩

theorem tickFails_not_succeeds (w : World) (hf : TickFails w) : ¬ TickSucceeds w := by
  rintro ⟨p, ip, c, h1, h2, h3⟩
  rcases hf with ⟨err, e1⟩ | ⟨q, err, e1, e2⟩ | ⟨q, jp, err, e1, e2, e3⟩
  · rw [h1] at e1; cases e1
  · rw [h1] at e1
    cases e1
    rw [h2] at e2; cases e2
  · rw [h1] at e1
    cases e1
    rw [h2] at e2
    cases e2
    rw [h3] at e3; cases e3

theorem format1504_ne_empty (t : Clock) : t.Format1504 ≠ "" := by
  intro h
  have := congrArg String.data h
  simp [Clock.Format1504, pad2] at this

theorem title_ne_placeholder (a b : String) :
    "IP: " ++ a ++ " | Last Updated: " ++ b ≠ "IP not yet determined" := by
  intro h
  have := congrArg String.data h
  simp [String.data_append] at this

theorem data_ne_nil_of_ne_empty {s : String} (h : s.data ≠ []) : s ≠ "" := by
  intro e
  rw [e] at h
  exact h rfl

theorem tick_state (w : World) (s : State) :
    (TickFails w ∧ (checkIPAndUpdateTray w s).1 = s) ∨
    (TickSucceeds w ∧ ∃ ip, (checkIPAndUpdateTray w s).1 =
        { latestIP := ip, lastUpdated := w.Now.Format1504 } ∧
      ip.data ≠ [] ∧ ∀ c ∈ ip.data, isIpChar c = true) := by
  rcases tickFails_or_succeeds w with hf | hs
  · left
    obtain ⟨line, hl⟩ := checkIPAndUpdateTray_of_fail w s hf
    exact ⟨hf, by rw [hl]⟩
  · right
    refine ⟨hs, ?_⟩
    obtain ⟨p, ip, c, h1, h2, h3⟩ := hs
    refine ⟨ip, by rw [checkIPAndUpdateTray_of_ok w s p ip c h1 h2 h3], ?_⟩
    exact getIP_ok_chars w p ip h2

theorem tick_no_title (w : World) (s : State) (t : String) :
    Effect.SetTitle t ∉ (checkIPAndUpdateTray w s).2 := by
  intro hmem
  rcases tickFails_or_succeeds w with hf | ⟨p, ip, c, h1, h2, h3⟩
  · obtain ⟨line, hl⟩ := checkIPAndUpdateTray_of_fail w s hf
    rw [hl] at hmem
    simp only [List.mem_append, List.mem_singleton, reduceCtorEq, or_false] at hmem
    obtain ⟨l2, h2⟩ := getLatestLogFilePath_prints w baseDir _ hmem
    cases h2
  · rw [checkIPAndUpdateTray_of_ok w s p ip c h1 h2 h3] at hmem
    simp only [List.mem_append, List.mem_singleton, reduceCtorEq, or_false] at hmem
    obtain ⟨l2, h2⟩ := getLatestLogFilePath_prints w baseDir _ hmem
    cases h2

theorem eventLoop_state (evs : List Event) :
    ∀ s0 : State, Event.QuitClicked ∉ evs → LoopInv s0 →
      LoopInv (eventLoop s0 evs).1 ∧
      ((eventLoop s0 evs).1.latestIP = "" ↔
        (s0.latestIP = "" ∧ ∀ w, Event.Timer w ∈ evs → ¬ TickSucceeds w)) := by
  induction evs with
  | nil => intro s0 _ hinv; exact ⟨hinv, by simp [eventLoop]⟩
  | cons e rest ih =>
    intro s0 hq hinv
    have hq2 : Event.QuitClicked ∉ rest := fun h => hq (List.mem_cons_of_mem _ h)
    cases e with
    | QuitClicked => exact absurd (List.mem_cons_self _ _) hq
    | ShowIPClicked =>
      have hs : (showIP s0).1 = s0 := by unfold showIP; split <;> rfl
      have := ih s0 hq2 hinv
      simp only [eventLoop, hs]
      refine ⟨this.1, this.2.trans ?_⟩
      simp
    | Timer w =>
      simp only [eventLoop]
      rcases tick_state w s0 with ⟨hf, hst⟩ | ⟨hsuc, ip, hst, hne, hall⟩
      · rw [hst]
        have := ih s0 hq2 hinv
        refine ⟨this.1, this.2.trans ?_⟩
        have hnot := tickFails_not_succeeds w hf
        constructor
        · rintro ⟨h0, hr⟩
          refine ⟨h0, ?_⟩
          intro w2 hw2
          rcases List.mem_cons.1 hw2 with h | h
          · cases h; exact hnot
          · exact hr w2 h
        · rintro ⟨h0, hr⟩
          exact ⟨h0, fun w2 hw2 => hr w2 (List.mem_cons_of_mem _ hw2)⟩
      · rw [hst]
        have hinv1 : LoopInv { latestIP := ip, lastUpdated := w.Now.Format1504 } := by
          refine ⟨?_, hall⟩
          constructor
          · intro h; exact absurd h (data_ne_nil_of_ne_empty hne)
          · intro h; exact absurd h (format1504_ne_empty _)
        have := ih _ hq2 hinv1
        refine ⟨this.1, this.2.trans ?_⟩
        constructor
        · rintro ⟨h0, _⟩
          exact absurd h0 (data_ne_nil_of_ne_empty hne)
        · rintro ⟨_, hr⟩
          exact absurd hsuc (hr w (List.mem_cons_self _ _))

theorem eventLoop_no_placeholder (evs : List Event) :
    ∀ s0 : State, s0.latestIP ≠ "" →
      Effect.SetTitle "IP not yet determined" ∉ (eventLoop s0 evs).2 := by
  induction evs with
  | nil => intro s0 _; simp [eventLoop]
  | cons e rest ih =>
    intro s0 hne
    cases e with
    | QuitClicked => simp [eventLoop]
    | ShowIPClicked =>
      have hs : showIP s0 =
          (s0, [.SetTitle ("IP: " ++ s0.latestIP ++ " | Last Updated: " ++ s0.lastUpdated),
                .Println ("IP: " ++ s0.latestIP ++ " | Last Updated: " ++ s0.lastUpdated)]) := by
        unfold showIP
        rw [if_pos hne]
      simp only [eventLoop, hs, List.mem_append, List.mem_cons, List.mem_singleton,
        Effect.SetTitle.injEq, reduceCtorEq, List.not_mem_nil, or_false, not_or]
      exact ⟨fun h => title_ne_placeholder _ _ h.symm, ih s0 hne⟩
    | Timer w =>
      simp only [eventLoop, List.mem_append, not_or]
      refine ⟨tick_no_title w s0 _, ih _ ?_⟩
      rcases tick_state w s0 with ⟨_, hst⟩ | ⟨_, ip, hst, hne2, _⟩
      · rw [hst]; exact hne
      · rw [hst]; exact data_ne_nil_of_ne_empty hne2

theorem isIpChar_iff (c : Char) : isIpChar c = true ↔ (c.isDigit = true ∨ c = '.') := by
  simp [isIpChar]

/-- The function `onReady` runs one poll cycle at startup and then the loop: its final
state is the one the loop reaches from the initial state with a tick put in front. -/
theorem onReady_state (w0 : World) (events : List Event) :
    (onReady w0 events).1 = (eventLoop initState (.Timer w0 :: events)).1 := by
  simp [onReady, eventLoop]

/-! ## Claims on the poll cycle and the event loop -/

/-- C6: when a poll cycle fails at any of its three stages (locating the log file,
extracting the address, resolving the country), `checkIPAndUpdateTray` leaves `latestIP`
and `lastUpdated` as they were and does not set the tooltip: all it does is print to the
console. -/
theorem checkIPAndUpdateTray_failure (w : World) (s : State) (hfail : TickFails w) :
    (checkIPAndUpdateTray w s).1 = s ∧
    (∀ t, Effect.SetTooltip t ∉ (checkIPAndUpdateTray w s).2) ∧
    ∀ e ∈ (checkIPAndUpdateTray w s).2, ∃ line, e = Effect.Println line := by
  obtain ⟨line, hl⟩ := checkIPAndUpdateTray_of_fail w s hfail
  have hpr : ∀ e ∈ (checkIPAndUpdateTray w s).2, ∃ line, e = Effect.Println line := by
    rw [hl]
    intro e he
    rcases List.mem_append.1 he with he | he
    · exact getLatestLogFilePath_prints w baseDir e he
    · exact ⟨line, by simpa using he⟩
  refine ⟨by rw [hl], ?_, hpr⟩
  intro t ht
  obtain ⟨l2, h2⟩ := hpr _ ht
  cases h2

theorem checkIPAndUpdateTray_failure_witness :
    (TickFails (dirOnlyWorld filesOnlyListing) ∧
     TickFails (dirOnlyWorld sampleListing) ∧
     TickFails (offlineWorld sampleListing ["RaidMode: Online, Ip: 5.6.7.8,"])) ∧
    ((checkIPAndUpdateTray (dirOnlyWorld filesOnlyListing) staleState).1 = staleState ∧
     (∀ t, Effect.SetTooltip t ∉
        (checkIPAndUpdateTray (dirOnlyWorld filesOnlyListing) staleState).2) ∧
     ∀ e ∈ (checkIPAndUpdateTray (dirOnlyWorld filesOnlyListing) staleState).2,
        ∃ line, e = Effect.Println line) ∧
    ((checkIPAndUpdateTray (dirOnlyWorld sampleListing) staleState).1 = staleState ∧
     (∀ t, Effect.SetTooltip t ∉
        (checkIPAndUpdateTray (dirOnlyWorld sampleListing) staleState).2) ∧
     ∀ e ∈ (checkIPAndUpdateTray (dirOnlyWorld sampleListing) staleState).2,
        ∃ line, e = Effect.Println line) ∧
    ((checkIPAndUpdateTray
        (offlineWorld sampleListing ["RaidMode: Online, Ip: 5.6.7.8,"]) staleState).1
        = staleState ∧
     (∀ t, Effect.SetTooltip t ∉
        (checkIPAndUpdateTray
          (offlineWorld sampleListing ["RaidMode: Online, Ip: 5.6.7.8,"]) staleState).2) ∧
     ∀ e ∈ (checkIPAndUpdateTray
          (offlineWorld sampleListing ["RaidMode: Online, Ip: 5.6.7.8,"]) staleState).2,
        ∃ line, e = Effect.Println line) :=
  ⟨⟨Or.inl ⟨_, rfl⟩,
    Or.inr (Or.inl ⟨_, _, rfl, rfl⟩),
    Or.inr (Or.inr ⟨_, _, _, rfl, rfl, rfl⟩)⟩,
   checkIPAndUpdateTray_failure (dirOnlyWorld filesOnlyListing) staleState
    (Or.inl ⟨_, rfl⟩),
   checkIPAndUpdateTray_failure (dirOnlyWorld sampleListing) staleState
    (Or.inr (Or.inl ⟨_, _, rfl, rfl⟩)),
   checkIPAndUpdateTray_failure
    (offlineWorld sampleListing ["RaidMode: Online, Ip: 5.6.7.8,"]) staleState
    (Or.inr (Or.inr ⟨_, _, _, rfl, rfl, rfl⟩))⟩

/-- C7: when the three stages succeed with the address `ip` and the country `c`, and the
clock reads `w.Now`, `checkIPAndUpdateTray` sets `latestIP` to `ip` and `lastUpdated` to
the clock reading as two-digit hour, colon, two-digit minute, and its only call on the
tray is `SetTooltip` with exactly `IP: <ip> | Country: <c> | Last Updated: <HH:MM>`. -/
theorem checkIPAndUpdateTray_success (w : World) (s : State) (p ip c : String)
    (h1 : (getLatestLogFilePath w baseDir).2 = .ok p)
    (h2 : getIPFromMatchingLine w p = .ok ip) (h3 : getCountryNameForIP w ip = .ok c) :
    (checkIPAndUpdateTray w s).1 = { latestIP := ip, lastUpdated := w.Now.Format1504 } ∧
    w.Now.Format1504 = String.mk
      [Nat.digitChar (w.Now.hour.val / 10), Nat.digitChar (w.Now.hour.val % 10), ':',
       Nat.digitChar (w.Now.minute.val / 10), Nat.digitChar (w.Now.minute.val % 10)] ∧
    ∃ out, (checkIPAndUpdateTray w s).2 = out ++
        [.SetTooltip ("IP: " ++ ip ++ " | Country: " ++ c ++ " | Last Updated: " ++
          w.Now.Format1504)] ∧
      ∀ e ∈ out, ∃ line, e = Effect.Println line := by
  rw [checkIPAndUpdateTray_of_ok w s p ip c h1 h2 h3]
  refine ⟨rfl, ?_, _, rfl, getLatestLogFilePath_prints w baseDir⟩
  have hh : w.Now.hour.val / 10 % 10 = w.Now.hour.val / 10 := by
    have := w.Now.hour.isLt
    omega
  have hm : w.Now.minute.val / 10 % 10 = w.Now.minute.val / 10 := by
    have := w.Now.minute.isLt
    omega
  simp [Clock.Format1504, pad2, hh, hm]

theorem checkIPAndUpdateTray_success_witness :
    (checkIPAndUpdateTray onlineWorld staleState).1 =
      { latestIP := "5.6.7.8", lastUpdated := "09:05" } ∧
    (checkIPAndUpdateTray onlineWorld staleState).2 =
      [.Println "Latest directory: log_B",
       .Println ("Trying to open log file at path: " ++
          "C:\\Battlestate Games\\EFT\\Logs\\log_B\\B application.log"),
       .SetTooltip "IP: 5.6.7.8 | Country: Germany | Last Updated: 09:05"] ∧
    ((checkIPAndUpdateTray onlineWorld staleState).1 =
        { latestIP := "5.6.7.8", lastUpdated := onlineWorld.Now.Format1504 } ∧
     onlineWorld.Now.Format1504 = String.mk
      [Nat.digitChar (onlineWorld.Now.hour.val / 10),
       Nat.digitChar (onlineWorld.Now.hour.val % 10), ':',
       Nat.digitChar (onlineWorld.Now.minute.val / 10),
       Nat.digitChar (onlineWorld.Now.minute.val % 10)] ∧
     ∃ out, (checkIPAndUpdateTray onlineWorld staleState).2 = out ++
        [.SetTooltip ("IP: " ++ "5.6.7.8" ++ " | Country: " ++ "Germany" ++
          " | Last Updated: " ++ onlineWorld.Now.Format1504)] ∧
      ∀ e ∈ out, ∃ line, e = Effect.Println line) :=
  ⟨by decide, by decide,
   checkIPAndUpdateTray_success onlineWorld staleState
    "C:\\Battlestate Games\\EFT\\Logs\\log_B\\B application.log" "5.6.7.8" "Germany"
    (by decide) (by decide) (by decide)⟩

/-- C8: handling a click on "Show IP & Country" sets the tray title to
`IP not yet determined` when `latestIP` is empty and to
`IP: <latestIP> | Last Updated: <lastUpdated>` (no country in it) otherwise, and leaves
`latestIP` and `lastUpdated` unchanged in both cases. -/
theorem showIP_title (s : State) :
    (showIP s).1 = s ∧ (eventLoop s [.ShowIPClicked]).1 = s ∧
    (eventLoop s [.ShowIPClicked]).2 = (showIP s).2 ∧
    (s.latestIP = "" → (showIP s).2 = [.SetTitle "IP not yet determined"]) ∧
    (s.latestIP ≠ "" → (showIP s).2 =
      [.SetTitle ("IP: " ++ s.latestIP ++ " | Last Updated: " ++ s.lastUpdated),
       .Println ("IP: " ++ s.latestIP ++ " | Last Updated: " ++ s.lastUpdated)]) := by
  have hs : (showIP s).1 = s := by unfold showIP; split <;> rfl
  refine ⟨hs, by simp [eventLoop, hs], by simp [eventLoop], ?_, ?_⟩
  · intro h
    unfold showIP
    simp [h]
  · intro h
    unfold showIP
    rw [if_pos h]

theorem showIP_title_witness :
    (showIP initState).2 = [.SetTitle "IP not yet determined"] ∧
    (showIP staleState).2 =
      [.SetTitle "IP: 1.2.3.4 | Last Updated: 08:00",
       .Println "IP: 1.2.3.4 | Last Updated: 08:00"] ∧
    (showIP initState).1 = initState ∧ (showIP staleState).1 = staleState :=
  ⟨(showIP_title initState).2.2.2.1 rfl,
   (showIP_title staleState).2.2.2.2 (by decide),
   (showIP_title initState).1, (showIP_title staleState).1⟩

/-- C10: in the state reached from the initial one (`latestIP` and `lastUpdated` both
empty) by any finite sequence of timer ticks, succeeding or failing, and clicks on
"Show IP & Country": `latestIP` is empty exactly when `lastUpdated` is, `latestIP` is
empty exactly when no tick of the sequence succeeded, `latestIP` holds digits and dots
only; an extraction that succeeds yields a non-empty string of digits and dots; and once
a tick has succeeded, no later event sets the title to `IP not yet determined`. -/
theorem eventLoop_reachable (evs : List Event) (hq : Event.QuitClicked ∉ evs) :
    ((eventLoop initState evs).1.latestIP = "" ↔
      (eventLoop initState evs).1.lastUpdated = "") ∧
    ((eventLoop initState evs).1.latestIP = "" ↔
      ∀ w, Event.Timer w ∈ evs → ¬ TickSucceeds w) ∧
    (∀ c ∈ (eventLoop initState evs).1.latestIP.data, c.isDigit = true ∨ c = '.') ∧
    (∀ w p ip, getIPFromMatchingLine w p = .ok ip →
      ip ≠ "" ∧ ∀ c ∈ ip.data, c.isDigit = true ∨ c = '.') ∧
    ((∃ w, Event.Timer w ∈ evs ∧ TickSucceeds w) →
      ∀ later, Effect.SetTitle "IP not yet determined" ∉
        (eventLoop (eventLoop initState evs).1 later).2) := by
  have hinit : LoopInv initState := ⟨by simp [initState], by simp [initState]⟩
  obtain ⟨⟨hiff, hchars⟩, hempty⟩ := eventLoop_state evs initState hq hinit
  have hempty2 : (eventLoop initState evs).1.latestIP = "" ↔
      ∀ w, Event.Timer w ∈ evs → ¬ TickSucceeds w := by
    rw [hempty]
    simp [initState]
  refine ⟨hiff, hempty2, ?_, ?_, ?_⟩
  · intro c hc
    exact (isIpChar_iff c).1 (hchars c hc)
  · intro w p ip h
    obtain ⟨hne, hall⟩ := getIP_ok_chars w p ip h
    exact ⟨data_ne_nil_of_ne_empty hne, fun c hc => (isIpChar_iff c).1 (hall c hc)⟩
  · rintro ⟨w, hw, hsuc⟩ later
    apply eventLoop_no_placeholder
    intro h0
    exact (hempty2.1 h0) w hw hsuc

theorem eventLoop_reachable_witness :
    Event.QuitClicked ∉ sampleEvents ∧
    (eventLoop initState sampleEvents).1 = { latestIP := "5.6.7.8", lastUpdated := "09:05" } ∧
    (((eventLoop initState sampleEvents).1.latestIP = "" ↔
      (eventLoop initState sampleEvents).1.lastUpdated = "") ∧
    ((eventLoop initState sampleEvents).1.latestIP = "" ↔
      ∀ w, Event.Timer w ∈ sampleEvents → ¬ TickSucceeds w) ∧
    (∀ c ∈ (eventLoop initState sampleEvents).1.latestIP.data, c.isDigit = true ∨ c = '.') ∧
    (∀ w p ip, getIPFromMatchingLine w p = .ok ip →
      ip ≠ "" ∧ ∀ c ∈ ip.data, c.isDigit = true ∨ c = '.') ∧
    ((∃ w, Event.Timer w ∈ sampleEvents ∧ TickSucceeds w) →
      ∀ later, Effect.SetTitle "IP not yet determined" ∉
        (eventLoop (eventLoop initState sampleEvents).1 later).2)) :=
  ⟨by simp [sampleEvents], by decide,
   eventLoop_reachable sampleEvents (by simp [sampleEvents])⟩

end TarkovWatcher
